import Mathlib

/-!
Verification of the context-relevance archive and scoring engine of the
memory-mcp repository (src/db/db.ts and src/tools/memory.ts), shallowly
embedded in Lean.

The MongoDB collection is modelled as a list of schemaless documents
(`Doc`, every context field optional), together with a counter supplying
fresh document ids and a logical clock supplying timestamps.  Relevance
scores are rationals.  JavaScript's `s.toLowerCase().split(/\s+/)` is
modelled exactly, including its boundary behaviour: splitting an empty
string yields `[""]`, and a string with leading or trailing whitespace
contributes an empty-string token.
-/

/-- JavaScript `split(/\s+/)` on a character list. `acc` is the piece being
built (reversed); `inWs` records that the previous character was whitespace,
so that a maximal whitespace run produces a single cut. -/
def jsSplitAux : List Char → List Char → Bool → List (List Char)
  | [], acc, _ => [acc.reverse]
  | c :: cs, acc, inWs =>
    if c.isWhitespace then
      if inWs then jsSplitAux cs acc true
      else acc.reverse :: jsSplitAux cs [] true
    else jsSplitAux cs (c :: acc) false

/-- JavaScript `s.split(/\s+/)`: pieces between maximal whitespace runs,
including an empty piece at either end when the string starts or ends with
whitespace, and `[""]` for the empty string. -/
def jsSplitWs (s : String) : List String :=
  (jsSplitAux s.data [] false).map List.asString

/-- JavaScript `s.toLowerCase()` (ASCII case mapping), character by
character. -/
def lowerStr (s : String) : String := List.asString (s.data.map Char.toLower)

/-- `new Set(s.toLowerCase().split(/\s+/))` from `scoreRelevance`. -/
def tokenSet (s : String) : Finset String := (jsSplitWs (lowerStr s)).toFinset

/-- The overlap score computed by `scoreRelevance`:
`intersection.size / union.size` over two token sets. -/
def jaccard (a b : Finset String) : ℚ :=
  ((a ∩ b).card : ℚ) / ((a ∪ b).card : ℚ)

/-- Helper for the spec-side tokenizer: collect the maximal nonempty runs of
non-whitespace characters. -/
def specWordsAux : List Char → List Char → List (List Char)
  | [], acc => if acc.isEmpty then [] else [acc.reverse]
  | c :: cs, acc =>
    if c.isWhitespace then
      if acc.isEmpty then specWordsAux cs []
      else acc.reverse :: specWordsAux cs []
    else specWordsAux cs (c :: acc)

/-- Modelled from the spec: the whitespace-delimited tokens of a string,
where a token is a maximal nonempty run of non-whitespace characters (so the
empty string, or an all-whitespace string, has no tokens).  This follows the
spec's wording in §3 and §4.3, which treats the token set of an empty text
as empty. -/
def specWords (s : String) : List String :=
  (specWordsAux s.data []).map List.asString

/-- Modelled from the spec: the set of lower-cased whitespace-split tokens
of a string (§4.3); the spec-side definition against which the code's
`tokenSet` is compared. -/
def specTokens (s : String) : Finset String :=
  (specWords (lowerStr s)).toFinset

/-- Modelled from the spec: the Jaccard similarity
`|currentWords ∩ itemWords| / |currentWords ∪ itemWords|` of the sets of
whitespace-split tokens of two texts (§4.3 of the spec). -/
def specJaccard (s t : String) : ℚ :=
  ((specTokens s ∩ specTokens t).card : ℚ) / ((specTokens s ∪ specTokens t).card : ℚ)

/-- Modelled from the spec: the number of whitespace-delimited tokens of a
string (§3: `wordCount` invariant), counting only nonempty tokens, so an
empty string has 0 tokens. -/
def specWordCount (s : String) : Nat := (specWords s).length

/-- A document of the shared `memories` collection.  Every field that the
TypeScript `Memory` interface marks optional is an `Option`; a plain memory
record has `none` in all context fields.  `id` is `_id` (`none` models a
caller-supplied object without `_id`); documents in the store always carry
`some` id. -/
structure Doc where
  id : Option Nat
  memories : List String
  timestamp : Nat
  llm : String
  userId : Option String := none
  conversationId : Option String := none
  contextType : Option String := none
  tags : Option (List String) := none
  messageIndex : Option Nat := none
  wordCount : Option Nat := none
  relevanceScore : Option ℚ := none
  parentContextId : Option Nat := none
  summaryText : Option String := none
deriving DecidableEq

/-- The state of the database: the single shared collection, the next fresh
`_id`, and a logical clock supplying `new Date()` timestamps. -/
structure Store where
  docs : List Doc
  nextId : Nat
  now : Nat
deriving DecidableEq

/-- Well-formedness of a store: document ids are distinct, present, and
below the fresh-id counter.  This models MongoDB's guarantee that `_id` is a
unique, always-present key. -/
def WF (s : Store) : Prop :=
  (s.docs.map Doc.id).Nodup ∧ (∀ d ∈ s.docs, d.id.isSome) ∧
    (∀ d ∈ s.docs, ∀ i, d.id = some i → i < s.nextId)

instance (s : Store) : Decidable (WF s) := by
  unfold WF; exact inferInstance

/-- Mongo sort `{ timestamp: -1 }`: `a` may precede `b` when its timestamp
is not smaller. -/
def tsGe (a b : Doc) : Prop := b.timestamp ≤ a.timestamp

instance : DecidableRel tsGe := fun a b => Nat.decLe b.timestamp a.timestamp

instance : IsTotal Doc tsGe := ⟨fun a b => Nat.le_total b.timestamp a.timestamp⟩

instance : IsTrans Doc tsGe := ⟨fun _ _ _ hab hbc => le_trans hbc hab⟩

/-- The relevance score used for sorting (`relevanceScore` with 0 for a
missing field; every document reaching this comparison in `retrieveContext`
has the field present). -/
def relScore (d : Doc) : ℚ := d.relevanceScore.getD 0

/-- Mongo sort `{ relevanceScore: -1, timestamp: -1 }`: score descending,
timestamp descending as tiebreak. -/
def relTsGe (a b : Doc) : Prop :=
  relScore b < relScore a ∨ (relScore b = relScore a ∧ b.timestamp ≤ a.timestamp)

instance : DecidableRel relTsGe := fun a b =>
  inferInstanceAs (Decidable (relScore b < relScore a ∨
    (relScore b = relScore a ∧ b.timestamp ≤ a.timestamp)))

instance : IsTotal Doc relTsGe := by
  constructor
  intro a b
  rcases lt_trichotomy (relScore a) (relScore b) with h | h | h
  · exact Or.inr (Or.inl h)
  · rcases Nat.le_total b.timestamp a.timestamp with hba | hab
    · exact Or.inl (Or.inr ⟨h.symm, hba⟩)
    · exact Or.inr (Or.inr ⟨h, hab⟩)
  · exact Or.inl (Or.inl h)

instance : IsTrans Doc relTsGe := by
  constructor
  intro a b c hab hbc
  rcases hab with h1 | ⟨h1, h1t⟩
  · rcases hbc with h2 | ⟨h2, _⟩
    · exact Or.inl (lt_trans h2 h1)
    · exact Or.inl (h2 ▸ h1)
  · rcases hbc with h2 | ⟨h2, h2t⟩
    · exact Or.inl (h1 ▸ h2)
    · exact Or.inr ⟨h2.trans h1, le_trans h2t h1t⟩

/-- `getAllMemories`: `collection.find({}).sort({ timestamp: -1 })` — every
document of the shared collection, timestamp descending. -/
def getAllMemories (s : Store) : List Doc :=
  List.insertionSort tsGe s.docs

/-- `clearAllMemories`: `collection.deleteMany({})`; returns
`result.deletedCount`. -/
def clearAllMemories (s : Store) : Nat × Store :=
  (s.docs.length, { s with docs := [] })

/-- The document built for position `p.1`, message `p.2` by the `map`
callback of `archiveContext`. -/
def mkArchived (cid : String) (tags : List String) (llm : String)
    (uid : Option String) (t : Nat) (baseId : Nat) (p : Nat × String) : Doc :=
  { id := some (baseId + p.1), memories := [p.2], timestamp := t, llm := llm,
    userId := uid, conversationId := some cid, contextType := some "archived",
    tags := some tags, messageIndex := some p.1,
    wordCount := some (jsSplitWs p.2).length }

/-- `archiveContext`: builds one archived document per message (with its
index) and inserts them in a single `insertMany`; returns
`result.insertedCount`.  The Node MongoDB driver rejects an empty batch —
`insertMany([])` throws `MongoInvalidArgumentError` ("Invalid BulkOperation,
Batch cannot be empty") — so the call raises instead of inserting when
`contextMessages` is empty; the error branch models that thrown driver
error. -/
def archiveContext (s : Store) (cid : String) (msgs tags : List String)
    (llm : String) (uid : Option String) : Except String (Nat × Store) :=
  let items := msgs.enum.map (mkArchived cid tags llm uid s.now s.nextId)
  if items.isEmpty then
    Except.error "Invalid BulkOperation, Batch cannot be empty"
  else
    Except.ok (items.length,
      { docs := s.docs ++ items, nextId := s.nextId + msgs.length, now := s.now + 1 })

/-- The filter `{ conversationId, contextType: "archived" }` used by
`scoreRelevance`. -/
def scoreMatch (cid : String) (d : Doc) : Bool :=
  d.conversationId == some cid && d.contextType == some "archived"

/-- The find filter of `retrieveContext`: conversation and archived type,
`relevanceScore: { $gte: minScore }` (a missing field never matches `$gte`),
and, when `tags` is non-empty, `tags: { $in: tags }` (some element of the
document's tag array lies in the given list; a missing field never
matches). -/
def retrievePred (cid : String) (tags : List String) (minScore : ℚ) (d : Doc) : Bool :=
  d.conversationId == some cid && d.contextType == some "archived" &&
    (match d.relevanceScore with
      | some q => decide (minScore ≤ q)
      | none => false) &&
    (if tags.isEmpty then true
     else match d.tags with
      | some ts => ts.any (fun t => tags.contains t)
      | none => false)

/-- `retrieveContext`: filter, sort score-desc/timestamp-desc, truncate to
`limit`. -/
def retrieveContext (s : Store) (cid : String) (tags : List String)
    (minScore : ℚ) (limit : Nat) : List Doc :=
  (List.insertionSort relTsGe (s.docs.filter (retrievePred cid tags minScore))).take limit

/-- Mongo `updateOne({ _id: i }, patch)`: rewrite the first document whose
id matches. -/
def updateOne (docs : List Doc) (i : Option Nat) (f : Doc → Doc) : List Doc :=
  match docs with
  | [] => []
  | d :: ds => if d.id = i then f d :: ds else d :: updateOne ds i f

/-- The patch `{ $set: { relevanceScore } }`. -/
def setRelevance (q : ℚ) (d : Doc) : Doc := { d with relevanceScore := some q }

/-- The score `scoreRelevance` computes for one archived item: overlap of
the current words with the tokens of `item.memories.join(" ")`. -/
def itemScore (currentWords : Finset String) (item : Doc) : ℚ :=
  jaccard currentWords (tokenSet (String.intercalate " " item.memories))

/-- `scoreRelevance`: load the archived items of the conversation, return 0
if none, otherwise score each against the current context with one
`updateOne` per item and return the number of items processed. -/
def scoreRelevance (s : Store) (cid currentContext llm : String) : Nat × Store :=
  let archivedItems := s.docs.filter (scoreMatch cid)
  if archivedItems.isEmpty then (0, s)
  else
    let currentWords := tokenSet currentContext
    let docs2 := archivedItems.foldl
      (fun acc item => updateOne acc item.id (setRelevance (itemScore currentWords item)))
      s.docs
    (archivedItems.length, { s with docs := docs2 })

/-- The summary document inserted by `createSummary`. -/
def mkSummaryDoc (s : Store) (cid summaryText llm : String) (uid : Option String) : Doc :=
  { id := some s.nextId, memories := [summaryText], timestamp := s.now, llm := llm,
    userId := uid, conversationId := some cid, contextType := some "summary",
    wordCount := some (jsSplitWs summaryText).length, summaryText := some summaryText }

/-- The patch `{ $set: { contextType: "archived", parentContextId } }`. -/
def summaryPatch (sid : Nat) (d : Doc) : Doc :=
  { d with contextType := some "archived", parentContextId := some sid }

/-- Mongo `updateMany({ _id: { $in: ids } }, ...)` applied to one document:
patched exactly when its id is among `ids`. -/
def patchByIds (ids : List Nat) (sid : Nat) (d : Doc) : Doc :=
  match d.id with
  | some i => if ids.contains i then summaryPatch sid d else d
  | none => d

/-- `createSummary`: insert the summary document, collect the non-null ids
of the given context items, and (when any exist) relink those documents to
the summary; returns the summary's id. -/
def createSummary (s : Store) (cid : String) (contextItems : List Doc)
    (summaryText llm : String) (uid : Option String) : Nat × Store :=
  let summaryDoc := mkSummaryDoc s cid summaryText llm uid
  let docs1 := s.docs ++ [summaryDoc]
  let itemIds := contextItems.filterMap Doc.id
  let docs2 :=
    if itemIds.isEmpty then docs1
    else docs1.map (patchByIds itemIds s.nextId)
  (s.nextId, { docs := docs2, nextId := s.nextId + 1, now := s.now + 1 })

/-- The filter `{ conversationId, contextType: "summary" }`. -/
def summaryMatch (cid : String) (d : Doc) : Bool :=
  d.conversationId == some cid && d.contextType == some "summary"

/-- `getConversationSummaries`: summaries of the conversation, timestamp
descending. -/
def getConversationSummaries (s : Store) (cid : String) : List Doc :=
  List.insertionSort tsGe (s.docs.filter (summaryMatch cid))

/-- Outcome of a tool-layer call: either the invalid-arguments text response
or a normal result. -/
inductive ToolResult where
  | invalidArgs : String → ToolResult
  | ok : List Doc → ToolResult
deriving DecidableEq

/-- `retrieveContextTool`: the only check performed is that
`conversationId` is a string; `tags`, `minRelevanceScore` and `limit` are
passed to `retrieveContext` unchanged (with the db-layer defaults 0.1 and 10
when absent). -/
def retrieveContextTool (s : Store) (conversationId : Option String)
    (tags : Option (List String)) (minRelevanceScore : Option ℚ)
    (limit : Option Nat) : ToolResult :=
  match conversationId with
  | none => ToolResult.invalidArgs "conversationId must be a string"
  | some cid =>
      ToolResult.ok
        (retrieveContext s cid (tags.getD []) (minRelevanceScore.getD (mkRat 1 10)) (limit.getD 10))

/-- Fields of a document other than `relevanceScore` agree. -/
def agreesExceptRelevance (a b : Doc) : Prop :=
  a.id = b.id ∧ a.memories = b.memories ∧ a.timestamp = b.timestamp ∧
    a.llm = b.llm ∧ a.userId = b.userId ∧ a.conversationId = b.conversationId ∧
    a.contextType = b.contextType ∧ a.tags = b.tags ∧
    a.messageIndex = b.messageIndex ∧ a.wordCount = b.wordCount ∧
    a.parentContextId = b.parentContextId ∧ a.summaryText = b.summaryText

/-! Concrete stores used to instantiate the theorems below. -/

/-- An empty store. -/
def st0 : Store := { docs := [], nextId := 0, now := 0 }

/-- An archived fragment whose text is `"alpha"`. -/
def itemA : Doc :=
  { id := some 0
    memories := ["alpha"]
    timestamp := 0
    llm := "L"
    conversationId := some "c"
    contextType := some "archived" }

/-- A store holding only `itemA`. -/
def stA : Store := { docs := [itemA], nextId := 1, now := 1 }

/-- An archived fragment whose text is `"alpha gamma"`. -/
def itemG : Doc :=
  { id := some 0
    memories := ["alpha gamma"]
    timestamp := 0
    llm := "L"
    conversationId := some "c"
    contextType := some "archived" }

/-- A store holding only `itemG`. -/
def stG : Store := { docs := [itemG], nextId := 1, now := 1 }

/-- An archived fragment whose text is the empty string. -/
def item2 : Doc :=
  { id := some 0
    memories := [""]
    timestamp := 0
    llm := "L"
    conversationId := some "c"
    contextType := some "archived" }

/-- A store holding only `item2`. -/
def st2 : Store := { docs := [item2], nextId := 1, now := 1 }

/-- An archived fragment scored 0.9. -/
def d09 : Doc :=
  { id := some 0
    memories := ["m0"]
    timestamp := 0
    llm := "L"
    conversationId := some "c"
    contextType := some "archived"
    relevanceScore := some (mkRat 9 10) }

/-- An archived fragment scored 0.5. -/
def d05 : Doc :=
  { id := some 1
    memories := ["m1"]
    timestamp := 1
    llm := "L"
    conversationId := some "c"
    contextType := some "archived"
    relevanceScore := some (mkRat 1 2) }

/-- An archived fragment scored 0.05. -/
def d005 : Doc :=
  { id := some 2
    memories := ["m2"]
    timestamp := 2
    llm := "L"
    conversationId := some "c"
    contextType := some "archived"
    relevanceScore := some (mkRat 1 20) }

/-- A store holding three scored archived fragments. -/
def st4 : Store := { docs := [d005, d09, d05], nextId := 3, now := 3 }

/-- An archived context item (not a plain memory record). -/
def ctx6 : Doc :=
  { id := some 0
    memories := ["hello"]
    timestamp := 5
    llm := "L"
    conversationId := some "c"
    contextType := some "archived" }

/-- A store whose only document is the context item `ctx6`. -/
def st6 : Store := { docs := [ctx6], nextId := 1, now := 6 }

/-- First archived fragment to be summarized. -/
def item7a : Doc :=
  { id := some 0
    memories := ["first part"]
    timestamp := 0
    llm := "L"
    conversationId := some "c"
    contextType := some "archived" }

/-- Second archived fragment to be summarized. -/
def item7b : Doc :=
  { id := some 1
    memories := ["second part"]
    timestamp := 1
    llm := "L"
    conversationId := some "c"
    contextType := some "archived" }

/-- A store holding the two fragments to be summarized. -/
def st7 : Store := { docs := [item7a, item7b], nextId := 2, now := 2 }

/-- A plain memory record (no context fields). -/
def memDoc : Doc :=
  { id := some 0
    memories := ["note"]
    timestamp := 0
    llm := "L" }

/-- An archived fragment of conversation `"c"`. -/
def arch10 : Doc :=
  { id := some 1
    memories := ["x y"]
    timestamp := 1
    llm := "L"
    conversationId := some "c"
    contextType := some "archived" }

/-- A store holding one memory record and one archived fragment. -/
def st10 : Store := { docs := [memDoc, arch10], nextId := 2, now := 2 }

/-! Helper lemmas. -/

theorem agrees_refl (d : Doc) : agreesExceptRelevance d d :=
  ⟨rfl, rfl, rfl, rfl, rfl, rfl, rfl, rfl, rfl, rfl, rfl, rfl⟩

theorem agrees_setRelevance (q : ℚ) (d : Doc) : agreesExceptRelevance d (setRelevance q d) :=
  ⟨rfl, rfl, rfl, rfl, rfl, rfl, rfl, rfl, rfl, rfl, rfl, rfl⟩

theorem map_fixed_of_ne (i : Nat) (f : Doc → Doc) (l : List Doc)
    (h : ∀ d ∈ l, ¬(d.id = some i)) :
    l.map (fun d => if d.id = some i then f d else d) = l := by
  have h2 : ∀ d ∈ l, (fun d => if d.id = some i then f d else d) d = id d := by
    intro d hd
    simp only [if_neg (h d hd), id]
  rw [List.map_congr_left h2, List.map_id]

theorem updateOne_eq_map (i : Nat) (f : Doc → Doc) :
    ∀ docs : List Doc, (docs.map Doc.id).Nodup →
      updateOne docs (some i) f = docs.map (fun d => if d.id = some i then f d else d)
  | [], _ => rfl
  | d :: ds, h => by
    rw [List.map_cons, List.nodup_cons] at h
    by_cases hd : d.id = some i
    · simp only [updateOne, List.map_cons, if_pos hd]
      have hnot : ∀ d' ∈ ds, ¬(d'.id = some i) := by
        intro d' hd' he
        exact h.1 (by rw [hd]; rw [← he]; exact List.mem_map_of_mem Doc.id hd')
      rw [map_fixed_of_ne i f ds hnot]
    · simp only [updateOne, List.map_cons, if_neg hd]
      rw [updateOne_eq_map i f ds h.2]

theorem foldl_updateOne_eq_map (cw : Finset String) (items : List Doc) :
    ∀ docs : List Doc,
      (docs.map Doc.id).Nodup →
      (∀ it ∈ items, it ∈ docs ∧ it.id.isSome) →
      ((items.map Doc.id).Nodup) →
      items.foldl
          (fun acc item => updateOne acc item.id (setRelevance (itemScore cw item))) docs
        = docs.map (fun d =>
            if d.id ∈ items.map Doc.id then setRelevance (itemScore cw d) d else d) := by
  induction items with
  | nil =>
    intro docs _ _ _
    simp
  | cons it its ih =>
    intro docs hnd hmem hndi
    obtain ⟨hitdocs, hsome⟩ := hmem it (List.mem_cons_self it its)
    obtain ⟨i, hi⟩ := Option.isSome_iff_exists.mp hsome
    rw [List.foldl_cons, hi, updateOne_eq_map i _ docs hnd]
    rw [List.map_cons, List.nodup_cons] at hndi
    have hni : some i ∉ its.map Doc.id := hi ▸ hndi.1
    have hid1 : ((docs.map fun d => if d.id = some i then setRelevance (itemScore cw it) d else d).map Doc.id)
        = docs.map Doc.id := by
      rw [List.map_map]
      apply List.map_congr_left
      intro d _hd
      by_cases h : d.id = some i
      · simp only [Function.comp, if_pos h, setRelevance]
      · simp only [Function.comp, if_neg h]
    have hnd1 : (((docs.map fun d => if d.id = some i then setRelevance (itemScore cw it) d else d)).map Doc.id).Nodup := by
      rw [hid1]; exact hnd
    have hmem1 : ∀ it' ∈ its,
        it' ∈ (docs.map fun d => if d.id = some i then setRelevance (itemScore cw it) d else d) ∧ it'.id.isSome := by
      intro it' hit'
      obtain ⟨hd', hs'⟩ := hmem it' (List.mem_cons_of_mem it hit')
      have hne : ¬(it'.id = some i) := fun he => hni (he ▸ List.mem_map_of_mem Doc.id hit')
      have hfix : (fun d => if d.id = some i then setRelevance (itemScore cw it) d else d) it' = it' := by
        simp only [if_neg hne]
      exact ⟨hfix ▸ List.mem_map_of_mem _ hd', hs'⟩
    rw [ih _ hnd1 hmem1 hndi.2, List.map_map]
    apply List.map_congr_left
    intro d hd
    by_cases hdi : d.id = some i
    · have hdit : d = it := List.inj_on_of_nodup_map hnd hd hitdocs (by rw [hdi, hi])
      have hsetid : (setRelevance (itemScore cw it) d).id = d.id := rfl
      have hnotits : ¬((setRelevance (itemScore cw it) d).id ∈ its.map Doc.id) := by
        rw [hsetid, hdi]; exact hni
      have hmemcons : d.id ∈ (it :: its).map Doc.id := by
        rw [List.map_cons, hi, hdi]; exact List.mem_cons_self _ _
      simp only [Function.comp, if_pos hdi, if_neg hnotits, if_pos hmemcons]
      rw [hdit]
    · have hiff : (d.id ∈ (it :: its).map Doc.id) ↔ (d.id ∈ its.map Doc.id) := by
        rw [List.map_cons, hi]
        constructor
        · intro h
          rcases List.mem_cons.mp h with h | h
          · exact absurd h hdi
          · exact h
        · exact fun h => List.mem_cons_of_mem _ h
      by_cases hmem2 : d.id ∈ its.map Doc.id
      · simp only [Function.comp, if_neg hdi, if_pos hmem2, if_pos (hiff.mpr hmem2)]
      · simp only [Function.comp, if_neg hdi, if_neg hmem2,
          if_neg (fun hc => hmem2 (hiff.mp hc))]

theorem scoreRelevance_eq (s : Store) (cid ctx llm : String) (hwf : WF s) :
    scoreRelevance s cid ctx llm
      = ((s.docs.filter (scoreMatch cid)).length,
         { s with docs := s.docs.map (fun d =>
             if scoreMatch cid d then setRelevance (itemScore (tokenSet ctx) d) d else d) }) := by
  obtain ⟨hnd, hsome, _⟩ := hwf
  unfold scoreRelevance
  by_cases hemp : (s.docs.filter (scoreMatch cid)).isEmpty
  · rw [if_pos hemp]
    have he : s.docs.filter (scoreMatch cid) = [] := List.isEmpty_iff.mp hemp
    have hnomatch : ∀ d ∈ s.docs, ¬(scoreMatch cid d = true) := by
      intro d hd hm
      have : d ∈ s.docs.filter (scoreMatch cid) := List.mem_filter.mpr ⟨hd, hm⟩
      rw [he] at this
      exact absurd this (List.not_mem_nil d)
    have hmap : s.docs.map (fun d =>
        if scoreMatch cid d then setRelevance (itemScore (tokenSet ctx) d) d else d) = s.docs := by
      have h2 : ∀ d ∈ s.docs, (fun d =>
          if scoreMatch cid d then setRelevance (itemScore (tokenSet ctx) d) d else d) d = id d := by
        intro d hd
        simp only [if_neg (hnomatch d hd), id]
      rw [List.map_congr_left h2, List.map_id]
    rw [he, hmap]
    rfl
  · rw [if_neg hemp]
    dsimp only
    have hsub : (s.docs.filter (scoreMatch cid)).Sublist s.docs := List.filter_sublist s.docs
    have hndi : ((s.docs.filter (scoreMatch cid)).map Doc.id).Nodup :=
      hnd.sublist (hsub.map Doc.id)
    have hmem : ∀ it ∈ s.docs.filter (scoreMatch cid), it ∈ s.docs ∧ it.id.isSome :=
      fun it hit => ⟨List.mem_of_mem_filter hit, hsome it (List.mem_of_mem_filter hit)⟩
    rw [foldl_updateOne_eq_map (tokenSet ctx) _ s.docs hnd hmem hndi]
    have hcond : s.docs.map (fun d =>
        if d.id ∈ (s.docs.filter (scoreMatch cid)).map Doc.id
        then setRelevance (itemScore (tokenSet ctx) d) d else d)
        = s.docs.map (fun d =>
        if scoreMatch cid d then setRelevance (itemScore (tokenSet ctx) d) d else d) := by
      apply List.map_congr_left
      intro d hd
      by_cases hm : scoreMatch cid d = true
      · have hin : d.id ∈ (s.docs.filter (scoreMatch cid)).map Doc.id :=
          List.mem_map_of_mem Doc.id (List.mem_filter.mpr ⟨hd, hm⟩)
        rw [if_pos hin, if_pos hm]
      · have hout : ¬(d.id ∈ (s.docs.filter (scoreMatch cid)).map Doc.id) := by
          intro hc
          obtain ⟨d', hd', hde⟩ := List.mem_map.mp hc
          have hd'docs : d' ∈ s.docs := List.mem_of_mem_filter hd'
          have : d' = d := List.inj_on_of_nodup_map hnd hd'docs hd hde
          exact hm (this ▸ (List.mem_filter.mp hd').2)
        rw [if_neg hout, if_neg hm]
    rw [hcond]

theorem zip_map_self (f : Doc → Doc) :
    ∀ l : List Doc, l.zip (l.map f) = l.map (fun a => (a, f a)) := by
  intro l
  induction l with
  | nil => rfl
  | cons a l ih => simp only [List.map_cons, List.zip_cons_cons, ih]

theorem patchByIds_nil (sid : Nat) (d : Doc) : patchByIds [] sid d = d := by
  unfold patchByIds
  cases d.id <;> rfl

theorem patchByIds_not_mem (ids : List Nat) (sid : Nat) (d : Doc)
    (h : ∀ i, d.id = some i → i ∉ ids) : patchByIds ids sid d = d := by
  unfold patchByIds
  cases hd : d.id with
  | none => rfl
  | some i =>
    dsimp only
    have hc : ¬(ids.contains i = true) := by
      intro hc
      exact h i hd (List.elem_iff.mp hc)
    rw [if_neg hc]

theorem patchByIds_mem (ids : List Nat) (sid : Nat) (d : Doc) (i : Nat)
    (hd : d.id = some i) (h : i ∈ ids) : patchByIds ids sid d = summaryPatch sid d := by
  unfold patchByIds
  rw [hd]
  dsimp only
  have hc : ids.contains i = true := List.elem_iff.mpr h
  rw [if_pos hc]

theorem createSummary_eq (s : Store) (cid : String) (items : List Doc)
    (txt llm : String) (uid : Option String)
    (hfresh : ∀ i ∈ items.filterMap Doc.id, i < s.nextId) :
    createSummary s cid items txt llm uid
      = (s.nextId,
         { docs := s.docs.map (patchByIds (items.filterMap Doc.id) s.nextId)
             ++ [mkSummaryDoc s cid txt llm uid],
           nextId := s.nextId + 1, now := s.now + 1 }) := by
  unfold createSummary
  dsimp only
  by_cases hemp : (items.filterMap Doc.id).isEmpty
  · rw [if_pos hemp]
    have he : items.filterMap Doc.id = [] := List.isEmpty_iff.mp hemp
    rw [he]
    have hmap : s.docs.map (patchByIds [] s.nextId) = s.docs := by
      have h2 : ∀ d ∈ s.docs, patchByIds [] s.nextId d = id d := by
        intro d _
        rw [patchByIds_nil]
        rfl
      rw [List.map_congr_left h2, List.map_id]
    rw [hmap]
  · rw [if_neg hemp]
    rw [List.map_append]
    have hsd : (mkSummaryDoc s cid txt llm uid).id = some s.nextId := rfl
    have hfix : [mkSummaryDoc s cid txt llm uid].map (patchByIds (items.filterMap Doc.id) s.nextId)
        = [mkSummaryDoc s cid txt llm uid] := by
      rw [List.map_singleton]
      rw [patchByIds_not_mem]
      intro i hi hmem
      rw [hsd] at hi
      have : i = s.nextId := by
        have := Option.some.inj hi
        exact this.symm
      exact absurd (hfresh i hmem) (by rw [this]; exact lt_irrefl s.nextId)
    rw [hfix]

theorem retrievePred_iff (cid : String) (tags : List String) (minScore : ℚ) (d : Doc) :
    retrievePred cid tags minScore d = true ↔
      (d.conversationId = some cid ∧ d.contextType = some "archived" ∧
        (∃ q, d.relevanceScore = some q ∧ minScore ≤ q) ∧
        (tags = [] ∨ ∃ ts, d.tags = some ts ∧ ∃ t ∈ ts, t ∈ tags)) := by
  cases hrs : d.relevanceScore with
  | none =>
    simp [retrievePred, hrs]
  | some q =>
    cases hts : d.tags with
    | none =>
      cases tags with
      | nil =>
        simp [retrievePred, hrs, hts, Bool.and_eq_true, beq_iff_eq, and_assoc]
      | cons t ts' =>
        simp [retrievePred, hrs, hts, Bool.and_eq_true, beq_iff_eq, and_assoc]
    | some ts =>
      cases tags with
      | nil =>
        simp [retrievePred, hrs, hts, Bool.and_eq_true, beq_iff_eq, and_assoc]
      | cons t ts' =>
        simp [retrievePred, hrs, hts, Bool.and_eq_true, beq_iff_eq, and_assoc,
          List.any_eq_true, List.contains, List.elem_iff]

theorem summaryMatch_mkSummaryDoc (s : Store) (cid txt llm : String) (uid : Option String) :
    summaryMatch cid (mkSummaryDoc s cid txt llm uid) = true := by
  simp [summaryMatch, mkSummaryDoc]

theorem mem_getConversationSummaries (s : Store) (cid : String) (d : Doc) :
    d ∈ getConversationSummaries s cid ↔ d ∈ s.docs.filter (summaryMatch cid) :=
  (List.perm_insertionSort tsGe (s.docs.filter (summaryMatch cid))).mem_iff

theorem jaccard_alpha_example :
    jaccard (tokenSet "alpha beta") (tokenSet "alpha gamma") = 1/3 := by
  have h1 : (tokenSet "alpha beta" ∩ tokenSet "alpha gamma").card = 1 := by decide
  have h2 : (tokenSet "alpha beta" ∪ tokenSet "alpha gamma").card = 3 := by decide
  unfold jaccard
  rw [h1, h2]
  norm_num

theorem jaccard_empty_one : jaccard (tokenSet "") (tokenSet "") = 1 := by
  have h1 : (tokenSet "" ∩ tokenSet "").card = 1 := by decide
  have h2 : (tokenSet "" ∪ tokenSet "").card = 1 := by decide
  unfold jaccard
  rw [h1, h2]
  norm_num

theorem itemScore_empty_one : itemScore (tokenSet "") item2 = 1 := by
  unfold itemScore
  show jaccard (tokenSet "") (tokenSet (String.intercalate " " [""])) = 1
  exact jaccard_empty_one

theorem itemScore_leading_half : itemScore (tokenSet " alpha") itemA = 1/2 := by
  unfold itemScore
  show jaccard (tokenSet " alpha") (tokenSet (String.intercalate " " ["alpha"])) = 1/2
  have h1 : (tokenSet " alpha" ∩ tokenSet (String.intercalate " " ["alpha"])).card = 1 := by decide
  have h2 : (tokenSet " alpha" ∪ tokenSet (String.intercalate " " ["alpha"])).card = 2 := by decide
  unfold jaccard
  rw [h1, h2]
  norm_num

theorem specJaccard_leading_one : specJaccard " alpha" "alpha" = 1 := by
  have h1 : (specTokens " alpha" ∩ specTokens "alpha").card = 1 := by decide
  have h2 : (specTokens " alpha" ∪ specTokens "alpha").card = 1 := by decide
  unfold specJaccard
  rw [h1, h2]
  norm_num

/-! Claim theorems. -/

/-- C1, counterexample: the claim computes the Jaccard score over the sets
of whitespace-split tokens (per the spec, nonempty tokens).  For
`currentContext = " alpha"` (leading space) against an archived item with
text `"alpha"`, that formula gives 1 (both token sets are `{alpha}`), but
the code persists 1/2, because JavaScript `" alpha".split(/\s+/)` is
`["", "alpha"]` and the empty-string token enlarges the union. -/
theorem scoreRelevance_spec_token_counterexample :
    (scoreRelevance stA "c" " alpha" "L").2.docs = [setRelevance (1/2) itemA] ∧
    specJaccard " alpha" "alpha" = 1 ∧ ((1:ℚ)/2) ≠ 1 := by
  refine ⟨?_, specJaccard_leading_one, by norm_num⟩
  have h1 : (scoreRelevance stA "c" " alpha" "L").2.docs
      = [setRelevance (itemScore (tokenSet " alpha") itemA) itemA] := rfl
  rw [h1, itemScore_leading_half]

/-- C1, amended: for every well-formed store, `scoreRelevance` persists onto
each archived item of the conversation the Jaccard similarity of the token
sets produced by JavaScript `toLowerCase().split(/\s+/)` of the current
context and of the item's joined memories (these sets include an
empty-string token for texts that are empty or have boundary whitespace),
and it returns the total number of archived items of that conversation,
whether or not any score changed. -/
theorem scoreRelevance_persists_jaccard (s : Store) (cid ctx llm : String) (hwf : WF s) :
    (scoreRelevance s cid ctx llm).1 = (s.docs.filter (scoreMatch cid)).length ∧
    ∀ d ∈ s.docs, scoreMatch cid d = true →
      setRelevance (jaccard (tokenSet ctx) (tokenSet (String.intercalate " " d.memories))) d
        ∈ (scoreRelevance s cid ctx llm).2.docs := by
  have heq := scoreRelevance_eq s cid ctx llm hwf
  rw [heq]
  refine ⟨rfl, ?_⟩
  intro d hd hm
  have hmem : (if scoreMatch cid d = true
        then setRelevance (itemScore (tokenSet ctx) d) d else d)
      ∈ List.map (fun d =>
          if scoreMatch cid d = true
          then setRelevance (itemScore (tokenSet ctx) d) d else d) s.docs :=
    List.mem_map_of_mem _ hd
  rw [if_pos hm] at hmem
  exact hmem

/-- Witness for C1's amended theorem: the spec's own example, `"alpha beta"`
against an archived item with text `"alpha gamma"`, persists exactly 1/3. -/
theorem scoreRelevance_persists_jaccard_witness :
    WF stG ∧ scoreMatch "c" itemG = true ∧
    setRelevance (jaccard (tokenSet "alpha beta") (tokenSet (String.intercalate " " itemG.memories))) itemG
      ∈ (scoreRelevance stG "c" "alpha beta" "L").2.docs := by
  refine ⟨by decide, by decide, ?_⟩
  exact (scoreRelevance_persists_jaccard stG "c" "alpha beta" "L" (by decide)).2
    itemG (by decide) (by decide)

/-- C2, counterexample: scoring `currentContext = ""` against an archived
item whose text is also empty persists score 1, not 0: JavaScript
`"".split(/\s+/)` is `[""]`, so both token sets are `{""}` and the union is
not empty. -/
theorem scoreRelevance_empty_counterexample :
    (scoreRelevance st2 "c" "" "L").2.docs = [setRelevance 1 item2] ∧ (1:ℚ) ≠ 0 := by
  refine ⟨?_, by norm_num⟩
  have h1 : (scoreRelevance st2 "c" "" "L").2.docs
      = [setRelevance (itemScore (tokenSet "") item2) item2] := rfl
  rw [h1, itemScore_empty_one]

/-- C2, amended: with both texts empty the persisted relevance score is the
well-defined number 1 (never NaN or undefined): both token sets are `{""}`,
the union has size 1, and 1/1 = 1 is stored. -/
theorem scoreRelevance_empty_scores_one :
    (scoreRelevance st2 "c" "" "L").1 = 1 ∧
    (scoreRelevance st2 "c" "" "L").2.docs.map Doc.relevanceScore = [some 1] := by
  refine ⟨rfl, ?_⟩
  have h1 : (scoreRelevance st2 "c" "" "L").2.docs
      = [setRelevance (itemScore (tokenSet "") item2) item2] := rfl
  rw [h1, itemScore_empty_one]
  rfl

/-- For a non-empty message list `archiveContext` succeeds and returns
`contextMessages.length` together with the store extended by the batch. -/
theorem archiveContext_ok_of_ne_nil (s : Store) (cid : String) (msgs tags : List String)
    (llm : String) (uid : Option String) (h : msgs ≠ []) :
    archiveContext s cid msgs tags llm uid
      = Except.ok (msgs.length,
          { docs := s.docs ++ msgs.enum.map (mkArchived cid tags llm uid s.now s.nextId),
            nextId := s.nextId + msgs.length, now := s.now + 1 }) := by
  unfold archiveContext
  dsimp only
  have hne : ¬((msgs.enum.map (mkArchived cid tags llm uid s.now s.nextId)).isEmpty = true) := by
    cases msgs with
    | nil => exact absurd rfl h
    | cons m ms => simp [List.enum_cons]
  rw [if_neg hne, List.length_map, List.enum_length]

/-- C3 (code bug): `archiveContext` with an empty `contextMessages` does not
return 0 — the Node MongoDB driver rejects `insertMany([])` with
`MongoInvalidArgumentError`, so the call raises at exactly the input the
claim (and spec §4.2: "0 is valid and not an error") declares error-free. -/
theorem archiveContext_empty_raises :
    archiveContext st0 "c" [] [] "L" none
      = Except.error "Invalid BulkOperation, Batch cannot be empty" := rfl

/-- C4 (confirmed): `retrieveContext` returns only archived items of the
conversation whose `relevanceScore` is present and at least the threshold
and whose tags intersect the given non-empty tag list; the result is sorted
by score descending with timestamp descending as tiebreak and truncated to
`limit`: it has at most `limit` elements, it is exactly the set of matching
items whenever they fit within `limit`, and a matching item is only ever
dropped when the result is full. -/
theorem retrieveContext_spec (s : Store) (cid : String) (tags : List String)
    (minScore : ℚ) (limit : Nat) :
    (∀ d ∈ retrieveContext s cid tags minScore limit,
        d.conversationId = some cid ∧ d.contextType = some "archived" ∧
        (∃ q, d.relevanceScore = some q ∧ minScore ≤ q) ∧
        (tags = [] ∨ ∃ ts, d.tags = some ts ∧ ∃ t ∈ ts, t ∈ tags)) ∧
    List.Pairwise relTsGe (retrieveContext s cid tags minScore limit) ∧
    (retrieveContext s cid tags minScore limit).length ≤ limit ∧
    ((s.docs.filter (retrievePred cid tags minScore)).length ≤ limit →
        (retrieveContext s cid tags minScore limit).Perm
          (s.docs.filter (retrievePred cid tags minScore))) ∧
    (∀ d ∈ s.docs, retrievePred cid tags minScore d = true →
        d ∉ retrieveContext s cid tags minScore limit →
        (retrieveContext s cid tags minScore limit).length = limit) := by
  refine ⟨?_, ?_, ?_, ?_, ?_⟩
  · intro d hd
    have h1 : d ∈ List.insertionSort relTsGe (s.docs.filter (retrievePred cid tags minScore)) :=
      List.mem_of_mem_take hd
    have h2 : d ∈ s.docs.filter (retrievePred cid tags minScore) :=
      (List.perm_insertionSort relTsGe _).mem_iff.mp h1
    exact (retrievePred_iff cid tags minScore d).mp (List.of_mem_filter h2)
  · exact List.Pairwise.sublist (List.take_sublist _ _) (List.sorted_insertionSort relTsGe _)
  · rw [retrieveContext, List.length_take]
    exact min_le_left _ _
  · intro hle
    have hlen : (List.insertionSort relTsGe (s.docs.filter (retrievePred cid tags minScore))).length ≤ limit := by
      rw [(List.perm_insertionSort relTsGe _).length_eq]
      exact hle
    rw [retrieveContext, List.take_of_length_le hlen]
    exact List.perm_insertionSort relTsGe _
  · intro d hd hpred hnot
    by_cases hle : (List.insertionSort relTsGe (s.docs.filter (retrievePred cid tags minScore))).length ≤ limit
    · exfalso
      apply hnot
      rw [retrieveContext, List.take_of_length_le hle]
      exact (List.perm_insertionSort relTsGe _).mem_iff.mpr (List.mem_filter.mpr ⟨hd, hpred⟩)
    · push_neg at hle
      rw [retrieveContext, List.length_take]
      exact min_eq_left (le_of_lt hle)

/-- Witness for C4: the spec's filtering example — three archived items
scored 0.9, 0.5 and 0.05 with threshold 0.1 — retrieves exactly the first
two. -/
theorem retrieveContext_spec_witness :
    (st4.docs.filter (retrievePred "c" [] (mkRat 1 10))).length ≤ 10 ∧
    (retrieveContext st4 "c" [] (mkRat 1 10) 10).Perm
      (st4.docs.filter (retrievePred "c" [] (mkRat 1 10))) := by
  refine ⟨by decide, ?_⟩
  exact (retrieveContext_spec st4 "c" [] (mkRat 1 10) 10).2.2.2.1 (by decide)

/-- The spec's retrieve-filtering test in closed form: the result is the two
qualifying items in score-descending order. -/
theorem retrieveContext_example :
    retrieveContext st4 "c" [] (mkRat 1 10) 10 = [d09, d05] := by decide

/-- C5, counterexample: calling the retrieve tool with `limit = 100`, which
is outside the claimed bound `[1, 50]`, does not raise a validation error:
the call succeeds and returns the matching items. -/
theorem retrieveContextTool_out_of_range_counterexample :
    retrieveContextTool st4 (some "c") none none (some 100) = ToolResult.ok [d09, d05] ∧
    (50 : Nat) < 100 := by
  refine ⟨?_, by norm_num⟩
  show ToolResult.ok (retrieveContext st4 "c" [] (mkRat 1 10) 100) = ToolResult.ok [d09, d05]
  have h : retrieveContext st4 "c" [] (mkRat 1 10) 100 = [d09, d05] := by decide
  rw [h]

/-- C5, amended: the tool layer validates only that `conversationId` is a
string; `limit` and `minRelevanceScore` are never range-checked, and every
value — in range or not — is passed unchanged to `retrieveContext` (with the
db-layer defaults 0.1 and 10 when absent), so no validation error is ever
raised for them. -/
theorem retrieveContextTool_passthrough (s : Store) (cid : String)
    (tags : Option (List String)) (ms : Option ℚ) (lim : Option Nat) :
    retrieveContextTool s (some cid) tags ms lim
      = ToolResult.ok (retrieveContext s cid (tags.getD []) (ms.getD (mkRat 1 10)) (lim.getD 10)) := rfl

/-- C6, counterexample: `getAllMemories` uses the empty filter on the shared
collection, so a store containing only an archived ContextItem returns that
item — the claim that ContextItems are excluded is false. -/
theorem getAllMemories_context_counterexample :
    getAllMemories st6 = [ctx6] ∧ ctx6.contextType = some "archived" := by
  exact ⟨by decide, rfl⟩

/-- C6, amended: `getAllMemories` returns every document of the shared
collection — memory records and ContextItems alike — ordered by timestamp
descending. -/
theorem getAllMemories_returns_all_docs (s : Store) :
    (getAllMemories s).Perm s.docs ∧ List.Pairwise tsGe (getAllMemories s) :=
  ⟨List.perm_insertionSort tsGe s.docs, List.sorted_insertionSort tsGe s.docs⟩

/-- C7, counterexample: `createSummary` with an empty `summaryText` stores
`wordCount = 1`, not the whitespace-token count 0, because JavaScript
`"".split(/\s+/)` has length 1. -/
theorem createSummary_wordcount_counterexample :
    (createSummary st0 "c" [] "" "L" none).2.docs.map Doc.wordCount = [some 1] ∧
    specWordCount "" = 0 ∧ (1 : Nat) ≠ 0 := by
  exact ⟨by decide, by decide, by decide⟩

/-- C7, amended: `createSummary` adds exactly one new document — the summary
item, with contextType `summary`, `memories = [summaryText]`,
`summaryText = summaryText` and `wordCount` equal to the length of
JavaScript `summaryText.split(/\s+/)` (which is 1, not 0, for an empty
summary text) — returns its id, archives-and-links every store document
whose id is carried by `contextItems` (items without an id are silently
skipped, and other documents are untouched), and
`getConversationSummaries` subsequently returns the summary item. -/
theorem createSummary_spec (s : Store) (cid : String) (items : List Doc)
    (txt llm : String) (uid : Option String)
    (hfresh : ∀ i ∈ items.filterMap Doc.id, i < s.nextId) :
    (createSummary s cid items txt llm uid).1 = s.nextId ∧
    (createSummary s cid items txt llm uid).2.docs
      = s.docs.map (patchByIds (items.filterMap Doc.id) s.nextId)
          ++ [mkSummaryDoc s cid txt llm uid] ∧
    (createSummary s cid items txt llm uid).2.docs.length = s.docs.length + 1 ∧
    (∀ d ∈ s.docs, ∀ i, d.id = some i → i ∈ items.filterMap Doc.id →
        summaryPatch s.nextId d ∈ (createSummary s cid items txt llm uid).2.docs) ∧
    (∀ d ∈ s.docs, (∀ i, d.id = some i → i ∉ items.filterMap Doc.id) →
        d ∈ (createSummary s cid items txt llm uid).2.docs) ∧
    mkSummaryDoc s cid txt llm uid
      ∈ getConversationSummaries (createSummary s cid items txt llm uid).2 cid ∧
    (mkSummaryDoc s cid txt llm uid).contextType = some "summary" ∧
    (mkSummaryDoc s cid txt llm uid).memories = [txt] ∧
    (mkSummaryDoc s cid txt llm uid).summaryText = some txt ∧
    (mkSummaryDoc s cid txt llm uid).wordCount = some (jsSplitWs txt).length := by
  have heq := createSummary_eq s cid items txt llm uid hfresh
  rw [heq]
  refine ⟨rfl, rfl, ?_, ?_, ?_, ?_, rfl, rfl, rfl, rfl⟩
  · rw [List.length_append, List.length_map]
    rfl
  · intro d hd i hdi hmem
    apply List.mem_append_left
    have : patchByIds (items.filterMap Doc.id) s.nextId d = summaryPatch s.nextId d :=
      patchByIds_mem _ _ d i hdi hmem
    exact this ▸ List.mem_map_of_mem _ hd
  · intro d hd hnone
    apply List.mem_append_left
    have : patchByIds (items.filterMap Doc.id) s.nextId d = d :=
      patchByIds_not_mem _ _ d hnone
    exact this ▸ List.mem_map_of_mem _ hd
  · rw [mem_getConversationSummaries]
    apply List.mem_filter.mpr
    constructor
    · exact List.mem_append_right _ (List.mem_singleton_self _)
    · exact summaryMatch_mkSummaryDoc s cid txt llm uid

/-- Witness for C7's amended theorem: summarizing two archived fragments
with valid ids links both to the returned summary id and makes the summary
retrievable. -/
theorem createSummary_spec_witness :
    (createSummary st7 "c" st7.docs "a short summary" "L" none).1 = 2 ∧
    summaryPatch 2 item7a ∈ (createSummary st7 "c" st7.docs "a short summary" "L" none).2.docs ∧
    summaryPatch 2 item7b ∈ (createSummary st7 "c" st7.docs "a short summary" "L" none).2.docs ∧
    mkSummaryDoc st7 "c" "a short summary" "L" none
      ∈ getConversationSummaries (createSummary st7 "c" st7.docs "a short summary" "L" none).2 "c" := by
  have h := createSummary_spec st7 "c" st7.docs "a short summary" "L" none (by decide)
  refine ⟨h.1, ?_, ?_, h.2.2.2.2.2.1⟩
  · exact h.2.2.2.1 item7a (by decide) 0 (by decide) (by decide)
  · exact h.2.2.2.1 item7b (by decide) 1 (by decide) (by decide)

/-- C8, counterexample: archiving the single empty-string message stores
`wordCount = 1`, not 0: JavaScript `"".split(/\s+/)` is `[""]`, of
length 1. -/
theorem archiveContext_wordcount_counterexample :
    (archiveContext st0 "c" [""] [] "L" none).toOption.map (fun r => r.2.docs.map Doc.wordCount)
      = some [some 1] ∧
    specWordCount "" = 0 ∧ (1 : Nat) ≠ 0 := by
  exact ⟨by decide, by decide, by decide⟩

/-- C8, amended: for each message at position `i`, `archiveContext`
succeeds (the batch is non-empty), returns `contextMessages.length`, and
creates one document with contextType `archived`, `messageIndex = i`,
`memories = [message]`, the full tag set, and `wordCount` equal to the
length of JavaScript `message.split(/\s+/)` (so an empty-string message
yields 1, and boundary whitespace contributes empty tokens), all inserted in
one batch. -/
theorem archiveContext_item_fields (s : Store) (cid : String) (msgs tags : List String)
    (llm : String) (uid : Option String) (i : Nat) (msg : String)
    (h : msgs[i]? = some msg) :
    ∃ st : Store,
      archiveContext s cid msgs tags llm uid = Except.ok (msgs.length, st) ∧
      ({ id := some (s.nextId + i), memories := [msg], timestamp := s.now, llm := llm,
         userId := uid, conversationId := some cid, contextType := some "archived",
         tags := some tags, messageIndex := some i,
         wordCount := some (jsSplitWs msg).length } : Doc)
        ∈ st.docs := by
  have hne : msgs ≠ [] := by
    intro he
    rw [he] at h
    simp at h
  refine ⟨_, archiveContext_ok_of_ne_nil s cid msgs tags llm uid hne, ?_⟩
  apply List.mem_append_right
  have henum : (i, msg) ∈ msgs.enum := List.mk_mem_enum_iff_getElem?.mpr h
  exact List.mem_map_of_mem (mkArchived cid tags llm uid s.now s.nextId) henum

/-- Witness for C8's amended theorem: archiving `["hello world"]` succeeds
and creates the expected document with `messageIndex = 0` and
`wordCount = 2`. -/
theorem archiveContext_item_fields_witness :
    ((["hello world"] : List String)[0]? = some "hello world") ∧
    ∃ st : Store,
      archiveContext st0 "c" ["hello world"] ["t"] "L" none = Except.ok (1, st) ∧
      ({ id := some 0, memories := ["hello world"], timestamp := 0, llm := "L",
         userId := none, conversationId := some "c", contextType := some "archived",
         tags := some ["t"], messageIndex := some 0,
         wordCount := some 2 } : Doc)
        ∈ st.docs := by
  refine ⟨rfl, ?_⟩
  exact archiveContext_item_fields st0 "c" ["hello world"] ["t"] "L" none 0 "hello world" rfl

/-- C9 (confirmed): because every capability writes to the one shared
collection, `clearAllMemories` deletes every document of the store — memory
records, archived fragments and summaries alike — and returns the total
number of documents deleted. -/
theorem clearAllMemories_spec (s : Store) :
    (clearAllMemories s).1 = s.docs.length ∧ (clearAllMemories s).2.docs = [] :=
  ⟨rfl, rfl⟩

/-- C10 (confirmed): on a well-formed store, `scoreRelevance` only ever
changes the `relevanceScore` field: the document list keeps its length,
every document agrees with its old version on all fields other than
`relevanceScore`, every document that is not an archived item of the given
conversation is entirely unchanged, and the rest of the store state is
untouched. -/
theorem scoreRelevance_frame (s : Store) (cid ctx llm : String) (hwf : WF s) :
    (scoreRelevance s cid ctx llm).2.docs.length = s.docs.length ∧
    (∀ p ∈ s.docs.zip (scoreRelevance s cid ctx llm).2.docs, agreesExceptRelevance p.1 p.2) ∧
    (∀ p ∈ s.docs.zip (scoreRelevance s cid ctx llm).2.docs,
        scoreMatch cid p.1 = false → p.2 = p.1) ∧
    (scoreRelevance s cid ctx llm).2.nextId = s.nextId ∧
    (scoreRelevance s cid ctx llm).2.now = s.now := by
  have heq := scoreRelevance_eq s cid ctx llm hwf
  rw [heq]
  refine ⟨by rw [List.length_map], ?_, ?_, rfl, rfl⟩
  · rw [zip_map_self]
    intro p hp
    obtain ⟨a, _ha, rfl⟩ := List.mem_map.mp hp
    dsimp only
    by_cases hm : scoreMatch cid a = true
    · rw [if_pos hm]
      exact agrees_setRelevance _ a
    · rw [if_neg hm]
      exact agrees_refl a
  · rw [zip_map_self]
    intro p hp hfalse
    obtain ⟨a, _ha, rfl⟩ := List.mem_map.mp hp
    dsimp only at hfalse ⊢
    rw [if_neg (by rw [hfalse]; exact Bool.false_ne_true)]

/-- Witness for C10: a store with one memory record and one archived
fragment keeps its length and leaves the memory record untouched. -/
theorem scoreRelevance_frame_witness :
    WF st10 ∧ (scoreRelevance st10 "c" "hello" "L").2.docs.length = st10.docs.length :=
  ⟨by decide, (scoreRelevance_frame st10 "c" "hello" "L" (by decide)).1⟩
